import Mathlib

/-!
Verification of the vector/matrix library (src/vector.rs, src/matrix.rs).

The Rust code works on `f64`; we embed it with exact real arithmetic (`ℝ`),
which is the idealised semantics the specification describes.  Fallible Rust
functions returning `Result<_, &'static str>` become `Except String _`, and
the error payloads are the exact strings of the source.  The elementwise
vector operations are generic in Rust (any numeric `T` with a `Default` zero
value); they are embedded generically over a division ring with decidable
equality.  Rust `Vec<T>` becomes `List`, index accesses become `List.getD`
(all accesses are in bounds in the verified statements, so the default value
is never observable), and the in-place column mutation of `set_col` becomes
an update returning the new matrix value.
-/

namespace VectorMath

/-- Operation selector for elementwise vector arithmetic, from `VectorOp`
in src/vector.rs. -/
inductive VectorOp
  | add
  | sub
  | mul
  | div

/-- The `match op` in the body of the `try_fold` closure of
`operate_vectors` (src/vector.rs): computes one elementwise value, failing
on a zero divisor (`T::default()` is the zero of the ring). -/
def applyOp {α : Type} [DivisionRing α] [DecidableEq α]
    (op : VectorOp) (p : α × α) : Except String α :=
  match op with
  | .add => pure (p.1 + p.2)
  | .sub => pure (p.1 - p.2)
  | .mul => pure (p.1 * p.2)
  | .div =>
      if p.2 = 0 then Except.error "Division by zero"
      else pure (p.1 / p.2)

/-- `operate_vectors` from src/vector.rs: length-checked elementwise
arithmetic, folding left-to-right and aborting on a zero divisor. -/
def operate_vectors {α : Type} [DivisionRing α] [DecidableEq α]
    (a b : List α) (op : VectorOp) : Except String (List α) :=
  if a.length ≠ b.length then .error "Vectors must have the same length"
  else
    (a.zip b).foldlM
      (fun acc p => do
        let val ← applyOp op p
        pure (acc ++ [val]))
      ([] : List α)

/-- `Vector::dot_product` from src/vector.rs. -/
noncomputable def dot_product (a b : List ℝ) : Except String ℝ :=
  if a.length ≠ b.length then .error "Vectors must have the same length"
  else .ok ((a.zip b).foldl (fun acc p => acc + p.1 * p.2) 0)

/-- `Vector::norm` from src/vector.rs: square root of the sum of squares,
rejecting the empty vector. -/
noncomputable def norm (a : List ℝ) : Except String ℝ :=
  if a.length = 0 then .error "Vector must have at least one element"
  else .ok (Real.sqrt (a.foldl (fun acc x => acc + x * x) 0))

/-- `Vector::cosine_similarity` from src/vector.rs. -/
noncomputable def cosine_similarity (a b : List ℝ) : Except String ℝ :=
  if a.length ≠ b.length then .error "Vectors must have the same length"
  else do
    let dot ← dot_product a b
    let norm_a ← norm a
    let norm_b ← norm b
    if norm_a = 0 ∨ norm_b = 0 then
      Except.error "Cannot compute cosine similarity with zero vector"
    else pure (dot / (norm_a * norm_b))

/-- The dot-product value computed by `dot_product` (the fold of
`acc + x * y` over the zipped vectors). -/
def dotValue (a b : List ℝ) : ℝ :=
  (a.zip b).foldl (fun acc p => acc + p.1 * p.2) 0

/-- The Euclidean-norm value computed by `norm` (square root of the fold of
`acc + x * x`). -/
noncomputable def normValue (a : List ℝ) : ℝ :=
  Real.sqrt (a.foldl (fun acc x => acc + x * x) 0)

/-- The matrix type of src/matrix.rs: row-major data plus explicit row and
column counts. -/
structure Matrix where
  data : List (List ℝ)
  rows : ℕ
  cols : ℕ

namespace Matrix

/-- `Matrix::new` from src/matrix.rs: validating constructor. -/
def new (data : List (List ℝ)) : Except String Matrix :=
  if data.isEmpty ∨ (data.getD 0 []).isEmpty then
    .error "Matrix cannot be empty"
  else
    let cols := (data.getD 0 []).length
    if ¬ data.all (fun r => r.length = cols) then
      .error "All rows must have the same number of columns"
    else .ok { data := data, rows := data.length, cols := cols }

/-- `Matrix::zeros` from src/matrix.rs. -/
def zeros (rows cols : ℕ) : Matrix :=
  { data := List.replicate rows (List.replicate cols (0 : ℝ))
    rows := rows
    cols := cols }

/-- `Matrix::transpose` from src/matrix.rs: fresh `cols × rows` matrix with
entry `[j][i]` equal to the source entry `[i][j]`. -/
def transpose (m : Matrix) : Matrix :=
  { data := (List.range m.cols).map (fun j =>
      (List.range m.rows).map (fun i => (m.data.getD i []).getD j 0))
    rows := m.cols
    cols := m.rows }

/-- `Matrix::mul` from src/matrix.rs: shape-checked matrix product; entry
`[i][j]` accumulates `self[i][k] * other[k][j]` over `k` in increasing
order. -/
def mul (m other : Matrix) : Except String Matrix :=
  if m.cols ≠ other.rows then .error "Incompatible shapes for multiplication"
  else .ok
    { data := (List.range m.rows).map (fun i =>
        (List.range other.cols).map (fun j =>
          ((List.range m.cols).map (fun k =>
            (m.data.getD i []).getD k 0 * (other.data.getD k []).getD j 0)).sum))
      rows := m.rows
      cols := other.cols }

/-- `Matrix::mul_vec` from src/matrix.rs. -/
def mul_vec (m : Matrix) (v : List ℝ) : Except String (List ℝ) :=
  if m.cols ≠ v.length then
    .error "Incompatible shapes for matrix-vector multiplication"
  else .ok (m.data.map (fun row => ((row.zip v).map (fun p => p.1 * p.2)).sum))

/-- `Matrix::col` from src/matrix.rs: extract column `idx`. -/
def col (m : Matrix) (idx : ℕ) : List ℝ :=
  (List.range m.rows).map (fun r => (m.data.getD r []).getD idx 0)

/-- One in-bounds entry update of a row-major table; used to embed the
index-assignment statements of src/matrix.rs. -/
def setEntry (d : List (List ℝ)) (r c : ℕ) (x : ℝ) : List (List ℝ) :=
  d.set r ((d.getD r []).set c x)

/-- `Matrix::set_col` from src/matrix.rs: length-checked column
replacement.  The Rust function mutates the receiver; here the updated
matrix is returned. -/
def set_col (m : Matrix) (idx : ℕ) (col : List ℝ) : Except String Matrix :=
  if col.length ≠ m.rows then .error "Column length mismatch"
  else .ok
    { m with data := col.enum.foldl (fun d p => setEntry d p.1 idx p.2) m.data }

/-- The state of the receiver after a `set_col` call: the updated matrix on
success, the unchanged matrix on failure (the Rust function returns before
touching the data in the error case). -/
def set_colState (m : Matrix) (idx : ℕ) (col : List ℝ) : Matrix :=
  match m.set_col idx col with
  | .ok m2 => m2
  | .error _ => m

/-- Sum of squares of the entries: the `v.iter().map(|x| x * x).sum()` of
`Matrix::normalize` in src/matrix.rs. -/
def sumSq (v : List ℝ) : ℝ := (v.map (fun x => x * x)).sum

/-- `Matrix::normalize` from src/matrix.rs: returns the scaled vector and
the Euclidean norm; the vector is left untouched when the norm is not
positive. -/
noncomputable def normalize (v : List ℝ) : List ℝ × ℝ :=
  let nrm := Real.sqrt (sumSq v)
  if 0 < nrm then (v.map (fun x => x / nrm), nrm) else (v, nrm)

/-- `Matrix::mat_vec_mul` from src/matrix.rs. -/
def mat_vec_mul (m : List (List ℝ)) (v : List ℝ) : List ℝ :=
  m.map (fun row => ((row.zip v).map (fun p => p.1 * p.2)).sum)

/-- `Matrix::rayleigh_quotient` from src/matrix.rs. -/
def rayleigh_quotient (m : List (List ℝ)) (v : List ℝ) : ℝ :=
  ((v.zip (mat_vec_mul m v)).map (fun p => p.1 * p.2)).sum

/-- The inner power-iteration loop of `Matrix::svd` (src/matrix.rs lines
134-147), with the iteration count as fuel: repeatedly normalize `W · b`,
stop early on a zero image or on Rayleigh-quotient convergence within
`tol`. -/
noncomputable def powerIter (tol : ℝ) (W : List (List ℝ)) :
    List ℝ → ℝ → ℕ → List ℝ × ℝ
  | b, lam, 0 => (b, lam)
  | b, lam, fuel + 1 =>
    let p := normalize (mat_vec_mul W b)
    if p.2 = 0 then (b, lam)
    else
      let lam_next := rayleigh_quotient W p.1
      if |lam_next - lam| < tol then (p.1, lam_next)
      else powerIter tol W p.1 lam_next fuel

/-- The deflation step of `Matrix::svd` (src/matrix.rs lines 156-160):
subtract `lam * b[i] * b[j]` from every entry. -/
def deflate (W : List (List ℝ)) (lam : ℝ) (b : List ℝ) : List (List ℝ) :=
  W.mapIdx (fun i row => row.mapIdx (fun j x => x - lam * b.getD i 0 * b.getD j 0))

/-- The outer eigenpair-extraction loop of `Matrix::svd` (src/matrix.rs
lines 127-161), with the remaining outer iterations as fuel: seed with the
all-ones vector, power-iterate, stop when the seed cannot be normalized or
the accepted eigenvalue is numerically zero, otherwise record the eigenpair
and deflate.  Returns the accepted eigenvalues and eigenvectors in
extraction order. -/
noncomputable def svdLoop (tol : ℝ) (maxIter n : ℕ) :
    List (List ℝ) → ℕ → List ℝ × List (List ℝ)
  | _, 0 => ([], [])
  | W, fuel + 1 =>
    let p := normalize (List.replicate n (1 : ℝ))
    if p.2 = 0 then ([], [])
    else
      let q := powerIter tol W p.1 0 maxIter
      if |q.2| < (1 / 10 ^ 12 : ℝ) then ([], [])
      else
        let rest := svdLoop tol maxIter n (deflate W q.2 q.1) fuel
        (q.2 :: rest.1, q.1 :: rest.2)

/-- The per-eigenvalue closure of `Matrix::svd` (src/matrix.rs lines
163-166): the singular value of an accepted eigenvalue, clamping
non-positive eigenvalues to `0` instead of taking a square root of a
negative number. -/
noncomputable def clampSqrt (x : ℝ) : ℝ :=
  if 0 < x then Real.sqrt x else 0

/-- `Matrix::svd` from src/matrix.rs: power iteration with deflation on
`AᵗA`, then assembly of `U`, the singular values and `Vᵗ`. -/
noncomputable def svd (A : Matrix) (tol : ℝ) (maxIter : ℕ) :
    Except String (Matrix × List ℝ × Matrix) := do
  let ata ← (A.transpose).mul A
  let n := ata.rows
  let ev := svdLoop tol maxIter n ata.data n
  let eigvals := ev.1
  let eigvecs := ev.2
  let singular_values := eigvals.map clampSqrt
  let r := singular_values.length
  if r = 0 then
    pure (zeros A.rows A.rows, [], zeros 0 0)
  else do
    let v_mat ← eigvecs.enum.foldlM (fun m p => m.set_col p.1 p.2) (zeros n r)
    let av ← A.mul v_mat
    let u_mat ← singular_values.enum.foldlM
      (fun m p =>
        let col_aj := av.col p.1
        let c :=
          if |p.2| < (1 / 10 ^ 12 : ℝ) then List.replicate A.rows (0 : ℝ)
          else col_aj.map (fun x => x / p.2)
        m.set_col p.1 c)
      (zeros A.rows r)
    let v_t : Matrix :=
      { data := (List.range r).foldl (fun d j =>
          let vj := v_mat.col j
          (List.range n).foldl (fun d2 i => setEntry d2 j i (vj.getD i 0)) d)
          ((zeros r n).data)
        rows := r
        cols := n }
    pure (u_mat, singular_values, v_t)

/-- The shape invariant of the matrix type: the row count matches the
number of stored rows and every stored row has exactly `cols` entries. -/
def WF (m : Matrix) : Prop :=
  m.data.length = m.rows ∧ ∀ row ∈ m.data, row.length = m.cols

/-- The matrix `AᵗA` computed at the start of `svd`: the successful result
of `self.transpose().mul(self)`, which cannot fail because the shapes agree
by construction. -/
noncomputable def ataMatrix (A : Matrix) : Matrix :=
  { data := (List.range A.transpose.rows).map (fun i =>
      (List.range A.cols).map (fun j =>
        ((List.range A.transpose.cols).map (fun k =>
          (A.transpose.data.getD i []).getD k 0 * (A.data.getD k []).getD j 0)).sum))
    rows := A.transpose.rows
    cols := A.cols }

/-- The accepted-eigenvalue sequence of the SVD eigen-extraction loop run
on `AᵗA` (the `eigvals` vector of `Matrix::svd`), in extraction order. -/
noncomputable def svdEigvals (A : Matrix) (tol : ℝ) (mi : ℕ) : List ℝ :=
  (svdLoop tol mi (ataMatrix A).rows (ataMatrix A).data (ataMatrix A).rows).1

/-- The singular-value sequence returned by `svd`, or `[]` if `svd` were to
fail. -/
noncomputable def svdSingularValues (A : Matrix) (tol : ℝ) (mi : ℕ) : List ℝ :=
  match A.svd tol mi with
  | .ok r => r.2.1
  | .error _ => []

/-- Normalization-free reformulation of `powerIter`: tracks an unnormalized
direction vector instead of the unit vector.  Every branch condition and
every Rayleigh quotient of `powerIter` is invariant under positive scaling
of `b`, so this recursion computes the same eigenvalue estimates using only
field operations (no square roots); `powerIter_sim` proves the
correspondence. -/
noncomputable def dirPowerIter (tol : ℝ) (W : List (List ℝ)) :
    List ℝ → ℝ → ℕ → List ℝ × ℝ
  | w, lam, 0 => (w, lam)
  | w, lam, fuel + 1 =>
    let u := mat_vec_mul W w
    if sumSq u = 0 then (w, lam)
    else
      let lam_next := rayleigh_quotient W u / sumSq u
      if |lam_next - lam| < tol then (u, lam_next)
      else dirPowerIter tol W u lam_next fuel

/-- Normalization-free reformulation of the deflation step: equals
`deflate W lam b` when `b` is the normalization of `w`
(`deflate_normalized`). -/
noncomputable def dirDeflate (W : List (List ℝ)) (lam : ℝ) (w : List ℝ) :
    List (List ℝ) :=
  W.mapIdx (fun i row => row.mapIdx (fun j x =>
    x - lam * (w.getD i 0 * w.getD j 0 / sumSq w)))

/-- Normalization-free reformulation of the outer loop `svdLoop`,
returning the accepted eigenvalues; `svdLoop_sim` proves it computes the
same eigenvalue list. -/
noncomputable def dirLoop (tol : ℝ) (maxIter n : ℕ) :
    List (List ℝ) → ℕ → List ℝ
  | _, 0 => []
  | W, fuel + 1 =>
    if n = 0 then []
    else
      let q := dirPowerIter tol W (List.replicate n 1) 0 maxIter
      if |q.2| < (1 / 10 ^ 12 : ℝ) then []
      else q.2 :: dirLoop tol maxIter n (dirDeflate W q.2 q.1) fuel

end Matrix

/-- A list is in strictly decreasing order: every entry is strictly
greater than its successor.  This is the literal reading of the claimed
"strictly non-increasing order" of the singular values. -/
def StrictlyDecreasing (l : List ℝ) : Prop :=
  l.Chain' (fun a b => b < a)

/-- A list is in non-increasing (weakly descending) order: every entry is
at least its successor.  This is the reading of the claimed order in which
tied singular values are allowed, the one the deflation argument of the
specification supports. -/
def NonIncreasing (l : List ℝ) : Prop :=
  l.Chain' (fun a b => b ≤ a)

/-! ### Generic list lemmas -/

lemma getD_map_range {β : Type} (f : ℕ → β) {m i : ℕ} (h : i < m) (d : β) :
    ((List.range m).map f).getD i d = f i := by
  rw [List.getD_eq_getElem?_getD, List.getElem?_map, List.getElem?_range h]
  rfl

lemma sum_map_range_eq (f : ℕ → ℝ) (n : ℕ) :
    ((List.range n).map f).sum = ∑ k ∈ Finset.range n, f k := by
  induction n with
  | zero => simp
  | succ n ih =>
      rw [List.range_succ, List.map_append, List.sum_append, Finset.sum_range_succ, ih]
      simp

namespace Matrix

/-! ### Transpose -/

lemma transpose_data (m : Matrix) :
    m.transpose.data = (List.range m.cols).map (fun j =>
      (List.range m.rows).map (fun i => (m.data.getD i []).getD j 0)) := rfl

lemma transpose_WF (m : Matrix) : m.transpose.WF := by
  refine ⟨by simp [transpose], ?_⟩
  intro row hrow
  rw [transpose_data] at hrow
  obtain ⟨j, _, rfl⟩ := List.mem_map.mp hrow
  simp [transpose]

lemma transpose_entry (m : Matrix) {i j : ℕ} (hi : i < m.rows) (hj : j < m.cols) :
    (m.transpose.data.getD j []).getD i 0 = (m.data.getD i []).getD j 0 := by
  rw [transpose_data, getD_map_range _ hj, getD_map_range _ hi]

lemma ext_mk {m1 m2 : Matrix} (hd : m1.data = m2.data) (hr : m1.rows = m2.rows)
    (hc : m1.cols = m2.cols) : m1 = m2 := by
  cases m1; cases m2; simp_all

/-- Double transposition is the identity on well-formed matrices. -/
lemma transpose_transpose (A : Matrix) (h : A.WF) : A.transpose.transpose = A := by
  obtain ⟨hlen, hrows⟩ := h
  obtain ⟨data, rows, cols⟩ := A
  refine ext_mk ?_ rfl rfl
  apply List.ext_getElem
  · simpa [transpose] using hlen.symm
  · intro n h1 h2
    simp only [transpose_data, transpose, List.getElem_map, List.getElem_range]
    have hn : n < rows := by simpa [transpose] using h1
    apply List.ext_getElem
    · have : data[n] ∈ data := List.getElem_mem h2
      simp [hrows _ this]
    · intro i hi1 hi2
      have hilt : i < cols := by simpa using hi1
      rw [List.getElem_map, List.getElem_range, getD_map_range _ hilt,
        getD_map_range _ hn, List.getD_eq_getElem data [] h2,
        List.getD_eq_getElem _ 0 hi2]

/-! ### Multiplication -/

lemma mul_error_iff (m other : Matrix) :
    m.mul other = .error "Incompatible shapes for multiplication" ↔
      m.cols ≠ other.rows := by
  by_cases h : m.cols = other.rows <;> simp [mul, h]

lemma mul_ok (m other : Matrix) (h : m.cols = other.rows) :
    m.mul other = .ok
      { data := (List.range m.rows).map (fun i =>
          (List.range other.cols).map (fun j =>
            ((List.range m.cols).map (fun k =>
              (m.data.getD i []).getD k 0 * (other.data.getD k []).getD j 0)).sum))
        rows := m.rows
        cols := other.cols } := by
  simp [mul, h]

lemma mul_out_WF (m other out : Matrix) (h : m.mul other = .ok out) : out.WF := by
  rw [mul] at h
  split at h
  · cases h
  · cases h
    refine ⟨by simp, ?_⟩
    intro row hrow
    obtain ⟨i, _, rfl⟩ := List.mem_map.mp hrow
    simp

lemma mul_out_entry (m other out : Matrix) (h : m.mul other = .ok out)
    {i j : ℕ} (hi : i < m.rows) (hj : j < other.cols) :
    (out.data.getD i []).getD j 0 =
      ∑ k ∈ Finset.range m.cols,
        (m.data.getD i []).getD k 0 * (other.data.getD k []).getD j 0 := by
  rw [mul] at h
  split at h
  · cases h
  · cases h
    rw [getD_map_range _ hi, getD_map_range _ hj, sum_map_range_eq]

lemma mul_out_shape (m other out : Matrix) (h : m.mul other = .ok out) :
    out.rows = m.rows ∧ out.cols = other.cols := by
  rw [mul] at h
  split at h
  · cases h
  · cases h
    exact ⟨rfl, rfl⟩

end Matrix

/-! ### Claim theorems: basic matrix algebra -/

/-- C4: `mul(A, B)` fails with the shape-mismatch error exactly when
`A.cols ≠ B.rows`; otherwise it succeeds with an `A.rows × B.cols` matrix
whose `(i, j)` entry is `Σ_k A[i][k] * B[k][j]`. -/
theorem matrix_mul_spec (A B : Matrix) :
    (A.mul B = .error "Incompatible shapes for multiplication" ↔ A.cols ≠ B.rows) ∧
    (A.cols = B.rows → ∃ out, A.mul B = .ok out ∧
      out.rows = A.rows ∧ out.cols = B.cols ∧
      ∀ i < A.rows, ∀ j < B.cols,
        (out.data.getD i []).getD j 0 =
          ∑ k ∈ Finset.range A.cols,
            (A.data.getD i []).getD k 0 * (B.data.getD k []).getD j 0) := by
  refine ⟨Matrix.mul_error_iff A B, fun h => ?_⟩
  refine ⟨_, Matrix.mul_ok A B h, rfl, rfl, fun i hi j hj => ?_⟩
  exact Matrix.mul_out_entry A B _ (Matrix.mul_ok A B h) hi hj

/-- Witness for the multiplication specification at concrete matrices:
a `1×2` times `2×1` product succeeds, and a mismatched product fails. -/
theorem matrix_mul_spec_witness :
    ((Matrix.mk [[1, 2]] 1 2).mul (Matrix.mk [[3], [4]] 2 1) =
        .error "Incompatible shapes for multiplication" ↔ (2 : ℕ) ≠ 2) ∧
    (∃ out, (Matrix.mk [[1, 2]] 1 2).mul (Matrix.mk [[3], [4]] 2 1) = .ok out ∧
      out.rows = 1 ∧ out.cols = 1 ∧
      ∀ i < 1, ∀ j < 1,
        (out.data.getD i []).getD j 0 =
          ∑ k ∈ Finset.range 2,
            (([[(1 : ℝ), 2]] : List (List ℝ)).getD i []).getD k 0 *
              (([[(3 : ℝ)], [4]] : List (List ℝ)).getD k []).getD j 0) := by
  have h := matrix_mul_spec (Matrix.mk [[1, 2]] 1 2) (Matrix.mk [[3], [4]] 2 1)
  exact ⟨h.1, h.2 rfl⟩

/-- C5: the validating constructor rejects an empty outer list or an empty
first row with the empty-matrix error, rejects ragged rows with the
ragged-rows error, and otherwise succeeds with `rows` the number of rows
and `cols` the length of the first row. -/
theorem matrix_new_spec (d : List (List ℝ)) :
    ((d = [] ∨ d.getD 0 [] = []) → Matrix.new d = .error "Matrix cannot be empty") ∧
    (d ≠ [] → d.getD 0 [] ≠ [] →
      (∃ row ∈ d, row.length ≠ (d.getD 0 []).length) →
      Matrix.new d = .error "All rows must have the same number of columns") ∧
    (d ≠ [] → d.getD 0 [] ≠ [] →
      (∀ row ∈ d, row.length = (d.getD 0 []).length) →
      Matrix.new d = .ok (Matrix.mk d d.length (d.getD 0 []).length)) := by
  refine ⟨fun h => ?_, fun h1 h2 h3 => ?_, fun h1 h2 h3 => ?_⟩
  · have hc : d.isEmpty = true ∨ (d.getD 0 []).isEmpty = true := by
      rcases h with h | h
      · exact Or.inl (List.isEmpty_iff.mpr h)
      · exact Or.inr (List.isEmpty_iff.mpr h)
    simp only [Matrix.new]
    rw [if_pos hc]
  · obtain ⟨row, hrow, hne⟩ := h3
    simp only [Matrix.new]
    rw [if_neg (by simp only [not_or, List.isEmpty_iff]; exact ⟨h1, h2⟩), if_pos]
    simp only [List.all_eq_true, decide_eq_true_eq, not_forall]
    exact ⟨row, hrow, hne⟩
  · simp only [Matrix.new]
    rw [if_neg (by simp only [not_or, List.isEmpty_iff]; exact ⟨h1, h2⟩), if_neg]
    simp only [List.all_eq_true, decide_eq_true_eq, not_forall, not_not, not_exists]
    intro row hrow
    simp [h3 row hrow]

/-- Witness for the construction specification: `[[1,2],[3,4],[5,6]]`
succeeds with 3 rows and 2 columns, `[[1,2],[3]]` is ragged, and `[]` is
empty. -/
theorem matrix_new_spec_witness :
    Matrix.new [[1, 2], [3, 4], [5, 6]] =
      .ok (Matrix.mk [[1, 2], [3, 4], [5, 6]] 3 2) ∧
    Matrix.new [[(1 : ℝ), 2], [3]] =
      .error "All rows must have the same number of columns" ∧
    Matrix.new ([] : List (List ℝ)) = .error "Matrix cannot be empty" := by
  refine ⟨?_, ?_, ?_⟩
  · have h := (matrix_new_spec [[1, 2], [3, 4], [5, 6]]).2.2 (by simp) (by simp)
      (by intro row hrow; simp at hrow; rcases hrow with h | h | h <;> simp [h])
    simpa using h
  · exact (matrix_new_spec [[(1 : ℝ), 2], [3]]).2.1 (by simp) (by simp)
      ⟨[3], by simp⟩
  · exact (matrix_new_spec []).1 (Or.inl rfl)

/-- C6: transposition is involutive on well-formed matrices. -/
theorem matrix_transpose_involutive (A : Matrix) (h : A.WF) :
    A.transpose.transpose = A :=
  Matrix.transpose_transpose A h

/-- Witness for transpose involutivity at a concrete `2×3` matrix. -/
theorem matrix_transpose_involutive_witness :
    (Matrix.mk [[1, 2, 3], [4, 5, 6]] 2 3).transpose.transpose =
      Matrix.mk [[1, 2, 3], [4, 5, 6]] 2 3 :=
  matrix_transpose_involutive (Matrix.mk [[1, 2, 3], [4, 5, 6]] 2 3)
    ⟨by simp, by intro row hrow; simp at hrow; rcases hrow with h | h <;> simp [h]⟩

namespace Matrix

/-! ### Column replacement -/

lemma getD_set_self (l : List ℝ) {i : ℕ} (h : i < l.length) (x : ℝ) :
    (l.set i x).getD i 0 = x := by
  rw [List.getD_eq_getElem?_getD, List.getElem?_set, if_pos rfl, if_pos h]
  rfl

lemma getD_set_ne (l : List ℝ) {i j : ℕ} (h : i ≠ j) (x : ℝ) (d : ℝ) :
    (l.set i x).getD j d = l.getD j d := by
  rw [List.getD_eq_getElem?_getD, List.getElem?_set, if_neg h,
    ← List.getD_eq_getElem?_getD]

lemma getD_oob {α : Type} (l : List α) {n : ℕ} (h : l.length ≤ n) (d : α) :
    l.getD n d = d := by
  rw [List.getD_eq_getElem?_getD, List.getElem?_eq_none h]
  rfl

lemma setEntry_getD (d : List (List ℝ)) (k c : ℕ) (x : ℝ) (r : ℕ) :
    (setEntry d k c x).getD r [] =
      if r = k then (d.getD k []).set c x else d.getD r [] := by
  unfold setEntry
  rw [List.getD_eq_getElem?_getD, List.getElem?_set]
  by_cases h : r = k
  · subst h
    rw [if_pos rfl, if_pos rfl]
    by_cases hk : r < d.length
    · rw [if_pos hk]
      rfl
    · rw [if_neg hk, getD_oob d (by omega), List.set_nil]
      rfl
  · rw [if_neg (fun hh => h hh.symm), if_neg h, ← List.getD_eq_getElem?_getD]

lemma setEntry_length (d : List (List ℝ)) (k c : ℕ) (x : ℝ) :
    (setEntry d k c x).length = d.length :=
  List.length_set d k _

lemma setColFold_length (c : ℕ) :
    ∀ (vals : List ℝ) (k : ℕ) (d : List (List ℝ)),
      ((List.enumFrom k vals).foldl (fun d p => setEntry d p.1 c p.2) d).length =
        d.length
  | [], _, _ => rfl
  | x :: xs, k, d => by
    rw [List.enumFrom_cons, List.foldl_cons, setColFold_length c xs (k + 1),
      setEntry_length]

lemma setColFold_getD (c : ℕ) :
    ∀ (vals : List ℝ) (k : ℕ) (d : List (List ℝ)) (r : ℕ),
      ((List.enumFrom k vals).foldl (fun d p => setEntry d p.1 c p.2) d).getD r [] =
        if k ≤ r ∧ r < k + vals.length
        then (d.getD r []).set c (vals.getD (r - k) 0)
        else d.getD r []
  | [], k, d, r => by
    rw [if_neg (by simp only [List.length_nil]; omega)]
    rfl
  | x :: xs, k, d, r => by
    rw [List.enumFrom_cons, List.foldl_cons,
      setColFold_getD c xs (k + 1) (setEntry d k c x) r]
    by_cases hr : r = k
    · subst hr
      rw [if_neg (by omega), setEntry_getD, if_pos rfl,
        if_pos ⟨le_refl r, by simp⟩]
      simp
    · rw [setEntry_getD, if_neg hr]
      by_cases h1 : k + 1 ≤ r ∧ r < k + 1 + xs.length
      · rw [if_pos h1, if_pos (by simp only [List.length_cons]; omega)]
        have hrk : r - k = (r - (k + 1)) + 1 := by omega
        rw [hrk, List.getD_cons_succ]
      · rw [if_neg h1, if_neg (by simp only [List.length_cons]; omega)]

lemma set_col_error_iff (m : Matrix) (c : ℕ) (vals : List ℝ) :
    m.set_col c vals = .error "Column length mismatch" ↔ vals.length ≠ m.rows := by
  by_cases h : vals.length = m.rows <;> simp [set_col, h]

lemma set_col_ok (m : Matrix) (c : ℕ) (vals : List ℝ) (h : vals.length = m.rows) :
    ∃ m2, m.set_col c vals = .ok m2 ∧ m2.rows = m.rows ∧ m2.cols = m.cols ∧
      m2.data.length = m.data.length ∧
      ∀ r, m2.data.getD r [] =
        if r < vals.length then (m.data.getD r []).set c (vals.getD r 0)
        else m.data.getD r [] := by
  refine ⟨{ m with data := vals.enum.foldl (fun d p => setEntry d p.1 c p.2) m.data },
    by simp [set_col, h], rfl, rfl, ?_, ?_⟩
  · show (vals.enum.foldl (fun d p => setEntry d p.1 c p.2) m.data).length = _
    rw [List.enum_eq_enumFrom]
    exact setColFold_length c vals 0 m.data
  · intro r
    show (vals.enum.foldl (fun d p => setEntry d p.1 c p.2) m.data).getD r [] = _
    rw [List.enum_eq_enumFrom, setColFold_getD]
    by_cases hr : r < vals.length
    · rw [if_pos ⟨Nat.zero_le r, by omega⟩, if_pos hr]
      rfl
    · rw [if_neg (by omega), if_neg hr]

lemma set_col_uniq {m m2 : Matrix} {c : ℕ} {vals : List ℝ}
    (h : m.set_col c vals = .ok m2) : vals.length = m.rows := by
  by_contra hne
  rw [(set_col_error_iff m c vals).mpr hne] at h
  cases h

lemma set_col_ok_spec {m m2 : Matrix} {c : ℕ} {vals : List ℝ}
    (h : m.set_col c vals = .ok m2) :
    m2.rows = m.rows ∧ m2.cols = m.cols ∧ m2.data.length = m.data.length ∧
      ∀ r, m2.data.getD r [] =
        if r < vals.length then (m.data.getD r []).set c (vals.getD r 0)
        else m.data.getD r [] := by
  obtain ⟨m3, h3, hp⟩ := set_col_ok m c vals (set_col_uniq h)
  rw [h3] at h
  cases h
  exact hp

lemma WF_getD_length {m : Matrix} (h : m.WF) {r : ℕ} (hr : r < m.rows) :
    (m.data.getD r []).length = m.cols := by
  obtain ⟨hlen, hrows⟩ := h
  have hlt : r < m.data.length := by omega
  rw [List.getD_eq_getElem m.data [] hlt]
  exact hrows _ (List.getElem_mem hlt)

lemma set_col_WF {m m2 : Matrix} {c : ℕ} {vals : List ℝ}
    (h : m.set_col c vals = .ok m2) (hWF : m.WF) : m2.WF := by
  obtain ⟨hr, hc, hlen, hget⟩ := set_col_ok_spec h
  obtain ⟨hlen0, hrows0⟩ := hWF
  refine ⟨by omega, ?_⟩
  intro row hrow
  obtain ⟨i, hi, hrow⟩ := List.getElem_of_mem hrow
  have : row = m2.data.getD i [] := by
    rw [List.getD_eq_getElem m2.data [] hi, hrow]
  subst this
  rw [hget i]
  split
  · rw [List.length_set, hc]
    have hilt : i < m.data.length := by omega
    rw [List.getD_eq_getElem m.data [] hilt]
    exact hrows0 _ (List.getElem_mem hilt)
  · rw [hc]
    have hilt : i < m.data.length := by omega
    rw [List.getD_eq_getElem m.data [] hilt]
    exact hrows0 _ (List.getElem_mem hilt)

end Matrix

/-- C7: for a well-formed matrix and an in-bounds column index, `set_col`
fails with the column-length-mismatch error exactly when the replacement
length differs from the row count, leaving the receiver unchanged; on
success it writes the replacement into column `idx`, preserves every other
column and both shape fields, and keeps the matrix well-formed. -/
theorem matrix_set_col_spec (M : Matrix) (idx : ℕ) (vals : List ℝ)
    (hWF : M.WF) (hidx : idx < M.cols) :
    (M.set_col idx vals = .error "Column length mismatch" ↔
      vals.length ≠ M.rows) ∧
    (vals.length ≠ M.rows → M.set_colState idx vals = M) ∧
    (vals.length = M.rows → ∃ out, M.set_col idx vals = .ok out ∧
      out.rows = M.rows ∧ out.cols = M.cols ∧
      (∀ r < M.rows, (out.data.getD r []).getD idx 0 = vals.getD r 0) ∧
      (∀ r < M.rows, ∀ j < M.cols, j ≠ idx →
        (out.data.getD r []).getD j 0 = (M.data.getD r []).getD j 0) ∧
      out.WF) := by
  refine ⟨Matrix.set_col_error_iff M idx vals, fun h => ?_, fun h => ?_⟩
  · rw [Matrix.set_colState, (Matrix.set_col_error_iff M idx vals).mpr h]
  · obtain ⟨out, hout, hr, hc, hlen, hget⟩ := Matrix.set_col_ok M idx vals h
    refine ⟨out, hout, hr, hc, ?_, ?_, Matrix.set_col_WF hout hWF⟩
    · intro r hrlt
      rw [hget r, if_pos (by omega)]
      exact Matrix.getD_set_self _ (by rw [Matrix.WF_getD_length hWF hrlt]; exact hidx) _
    · intro r hrlt j hj hji
      rw [hget r]
      split
      · exact Matrix.getD_set_ne _ (fun hh => hji hh.symm) _ _
      · rfl

/-- Witness for the column-replacement specification at a concrete `2×2`
matrix: a length-1 replacement fails, a length-2 replacement succeeds. -/
theorem matrix_set_col_spec_witness :
    (Matrix.mk [[1, 2], [3, 4]] 2 2).set_col 0 [5] =
      .error "Column length mismatch" ∧
    (∃ out, (Matrix.mk [[1, 2], [3, 4]] 2 2).set_col 0 [5, 6] = .ok out ∧
      out.rows = 2 ∧ out.cols = 2 ∧
      (∀ r < 2, (out.data.getD r []).getD 0 0 = ([(5 : ℝ), 6]).getD r 0) ∧
      (∀ r < 2, ∀ j < 2, j ≠ 0 →
        (out.data.getD r []).getD j 0 =
          (([[(1 : ℝ), 2], [3, 4]] : List (List ℝ)).getD r []).getD j 0) ∧
      out.WF) := by
  have hWF : (Matrix.mk [[(1 : ℝ), 2], [3, 4]] 2 2).WF := by
    refine ⟨by simp, ?_⟩
    intro row hrow
    simp at hrow
    rcases hrow with h | h <;> simp [h]
  have h := matrix_set_col_spec (Matrix.mk [[1, 2], [3, 4]] 2 2) 0 [5, 6] hWF
    (by norm_num)
  have h1 := matrix_set_col_spec (Matrix.mk [[1, 2], [3, 4]] 2 2) 0 [5] hWF
    (by norm_num)
  exact ⟨h1.1.mpr (by norm_num), h.2.2 rfl⟩

/-! ### Elementwise division -/

lemma exceptOk_bind {α β : Type} (x : α) (f : α → Except String β) :
    (Except.ok x >>= f) = f x := rfl

lemma exceptError_bind {α β : Type} (e : String) (f : α → Except String β) :
    ((Except.error e : Except String α) >>= f) = .error e := rfl

lemma exceptPure_bind {α β : Type} (x : α) (f : α → Except String β) :
    ((pure x : Except String α) >>= f) = f x := rfl

lemma applyOp_div {α : Type} [DivisionRing α] [DecidableEq α] (p : α × α) :
    applyOp VectorOp.div p =
      if p.2 = 0 then Except.error "Division by zero" else pure (p.1 / p.2) := rfl

lemma divFold_spec {α : Type} [DivisionRing α] [DecidableEq α] :
    ∀ (l : List (α × α)) (acc : List α),
      (l.foldlM (fun acc p => do
        let val ← applyOp VectorOp.div p
        pure (acc ++ [val])) acc) =
      if ∃ p ∈ l, p.2 = 0 then .error "Division by zero"
      else .ok (acc ++ l.map (fun p => p.1 / p.2))
  | [], acc => by
    rw [List.foldlM_nil, if_neg (by simp)]
    show Except.ok acc = _
    simp
  | p :: l, acc => by
    rw [List.foldlM_cons]
    show ((applyOp VectorOp.div p >>= fun val => pure (acc ++ [val])) >>= _) = _
    rw [applyOp_div]
    by_cases hp : p.2 = 0
    · have hccons : ∃ q ∈ p :: l, q.2 = 0 := ⟨p, List.mem_cons_self p l, hp⟩
      rw [if_pos hccons, if_pos hp, exceptError_bind, exceptError_bind]
    · rw [if_neg hp]
      simp only [pure_bind]
      rw [divFold_spec l (acc ++ [p.1 / p.2])]
      by_cases hl : ∃ q ∈ l, q.2 = 0
      · have hccons : ∃ q ∈ p :: l, q.2 = 0 := by
          obtain ⟨q, hq, hq0⟩ := hl
          exact ⟨q, List.mem_cons_of_mem p hq, hq0⟩
        rw [if_pos hl, if_pos hccons]
      · have hccons : ¬ ∃ q ∈ p :: l, q.2 = 0 := by
          intro hc
          obtain ⟨q, hq, hq0⟩ := hc
          rcases List.mem_cons.mp hq with rfl | hq
          · exact hp hq0
          · exact hl ⟨q, hq, hq0⟩
        rw [if_neg hl, if_neg hccons]
        simp

/-- C8: elementwise division of equal-length vectors fails with the
division-by-zero error exactly when some divisor entry is zero, and
otherwise returns the pairwise quotients; vectors of unequal length fail
with the length-mismatch error. -/
theorem elementwise_div_spec {α : Type} [DivisionRing α] [DecidableEq α]
    (a b : List α) :
    (a.length ≠ b.length →
      operate_vectors a b .div = .error "Vectors must have the same length") ∧
    (a.length = b.length →
      ((∃ i < b.length, b.getD i 0 = 0) →
        operate_vectors a b .div = .error "Division by zero") ∧
      ((∀ i < b.length, b.getD i 0 ≠ 0) →
        operate_vectors a b .div = .ok ((a.zip b).map (fun p => p.1 / p.2)) ∧
        ∀ i < b.length,
          ((a.zip b).map (fun p => p.1 / p.2)).getD i 0 =
            a.getD i 0 / b.getD i 0)) := by
  constructor
  · intro h
    unfold operate_vectors
    rw [if_pos h]
  · intro h
    have hzlen : (a.zip b).length = b.length := by
      rw [List.length_zip, h, min_self]
    constructor
    · intro ⟨i, hi, hb0⟩
      unfold operate_vectors
      rw [if_neg (by simp [h]), divFold_spec]
      have hiz : i < (a.zip b).length := by omega
      have hz : ∃ p ∈ a.zip b, p.2 = 0 := by
        refine ⟨(a.zip b)[i], List.getElem_mem hiz, ?_⟩
        rw [List.getElem_zip]
        show b[i] = 0
        rw [← List.getD_eq_getElem b 0 hi]
        exact hb0
      rw [if_pos hz]
    · intro hall
      have hnz : ¬ ∃ p ∈ a.zip b, p.2 = 0 := by
        intro ⟨p, hp, hp0⟩
        obtain ⟨i, hi, hpi⟩ := List.getElem_of_mem hp
        have hib : i < b.length := by omega
        apply hall i hib
        rw [List.getD_eq_getElem b 0 hib]
        have : p.2 = b[i] := by rw [← hpi, List.getElem_zip]
        rw [← this]
        exact hp0
      refine ⟨?_, ?_⟩
      · unfold operate_vectors
        rw [if_neg (by simp [h]), divFold_spec, if_neg hnz]
        simp
      · intro i hi
        have hiz : i < (a.zip b).length := by omega
        rw [List.getD_eq_getElem _ 0 (by simpa using hiz), List.getElem_map,
          List.getElem_zip, List.getD_eq_getElem a 0 (by omega),
          List.getD_eq_getElem b 0 hi]

/-- Witness for the elementwise-division specification over `ℚ`: the
division-by-zero case, the success case, and the length-mismatch case at
concrete vectors. -/
theorem elementwise_div_spec_witness :
    operate_vectors [(1 : ℚ), 2, 3] [1, 0, 3] .div = .error "Division by zero" ∧
    operate_vectors [(2 : ℚ), 4] [2, 2] .div = .ok [1, 2] ∧
    operate_vectors [(1 : ℚ), 2] [1, 2, 3] .div =
      .error "Vectors must have the same length" := by
  refine ⟨?_, ?_, ?_⟩
  · exact ((elementwise_div_spec [(1 : ℚ), 2, 3] [1, 0, 3]).2 rfl).1
      ⟨1, by norm_num, by norm_num⟩
  · have h := (((elementwise_div_spec [(2 : ℚ), 4] [2, 2]).2 rfl).2 (by decide)).1
    rw [h]
    congr 1
    norm_num [List.zip_cons_cons]
  · exact (elementwise_div_spec [(1 : ℚ), 2] [1, 2, 3]).1 (by decide)

/-! ### Cosine similarity -/

lemma dot_product_ok (a b : List ℝ) (h : a.length = b.length) :
    dot_product a b = .ok (dotValue a b) := by
  simp [dot_product, dotValue, h]

lemma norm_ok (a : List ℝ) (h : a ≠ []) :
    norm a = .ok (normValue a) := by
  have : a.length ≠ 0 := by simpa [List.length_eq_zero] using h
  simp [norm, normValue, this]

lemma cosine_similarity_eq (a b : List ℝ) (hab : a.length = b.length)
    (ha : a ≠ []) (hb : b ≠ []) :
    cosine_similarity a b =
      if normValue a = 0 ∨ normValue b = 0
      then .error "Cannot compute cosine similarity with zero vector"
      else .ok (dotValue a b / (normValue a * normValue b)) := by
  unfold cosine_similarity
  rw [if_neg (by simp [hab]), dot_product_ok a b hab, exceptOk_bind,
    norm_ok a ha, exceptOk_bind, norm_ok b hb, exceptOk_bind]
  rfl

/-- C9 (amended): for nonempty equal-length vectors, cosine similarity
fails with the zero-vector error exactly when either norm is zero and
otherwise returns `dot / (norm a * norm b)`; unequal lengths fail with the
length-mismatch error; two empty vectors fail with the empty-vector error
coming from `norm`. -/
theorem cosine_similarity_spec (a b : List ℝ) :
    (a.length ≠ b.length →
      cosine_similarity a b = .error "Vectors must have the same length") ∧
    (a ≠ [] → a.length = b.length →
      ((normValue a = 0 ∨ normValue b = 0 →
        cosine_similarity a b =
          .error "Cannot compute cosine similarity with zero vector") ∧
      (normValue a ≠ 0 → normValue b ≠ 0 →
        cosine_similarity a b =
          .ok (dotValue a b / (normValue a * normValue b))))) ∧
    (a = [] → b = [] →
      cosine_similarity a b = .error "Vector must have at least one element") := by
  refine ⟨fun h => ?_, fun ha hab => ⟨fun h0 => ?_, fun ha0 hb0 => ?_⟩,
    fun ha hb => ?_⟩
  · unfold cosine_similarity
    rw [if_pos h]
  · have hb : b ≠ [] := by
      intro hb
      apply ha
      rw [← List.length_eq_zero, hab, hb]
      rfl
    rw [cosine_similarity_eq a b hab ha hb, if_pos h0]
  · have hb : b ≠ [] := by
      intro hb
      apply ha
      rw [← List.length_eq_zero, hab, hb]
      rfl
    rw [cosine_similarity_eq a b hab ha hb, if_neg (by tauto)]
  · subst ha; subst hb
    rfl

/-- C9 counterexample: on two empty vectors (equal length, zero norms in
the sense of the specification) the code fails with the empty-vector error
of `norm`, not with the zero-vector-similarity error, and returns no
value. -/
theorem cosine_similarity_empty_counterexample :
    cosine_similarity [] [] = .error "Vector must have at least one element" ∧
    "Vector must have at least one element" ≠
      "Cannot compute cosine similarity with zero vector" := by
  exact ⟨rfl, by decide⟩

namespace Matrix

/-! ### The zero matrix and the SVD eigen-extraction loop -/

lemma zeros_WF (r c : ℕ) : (zeros r c).WF := by
  refine ⟨by simp [zeros], ?_⟩
  intro row hrow
  rw [show (zeros r c).data = List.replicate r (List.replicate c (0 : ℝ)) from rfl]
    at hrow
  rw [List.eq_of_mem_replicate hrow]
  simp [zeros]

lemma zeros_entry (r c i j : ℕ) :
    (((zeros r c).data.getD i []).getD j 0 : ℝ) = 0 := by
  show ((List.replicate r (List.replicate c (0 : ℝ))).getD i []).getD j 0 = 0
  by_cases hi : i < r
  · rw [List.getD_eq_getElem _ [] (by simpa using hi), List.getElem_replicate]
    by_cases hj : j < c
    · rw [List.getD_eq_getElem _ 0 (by simpa using hj), List.getElem_replicate]
    · rw [getD_oob (List.replicate c (0 : ℝ)) (by simpa using hj)]
  · rw [getD_oob (List.replicate r (List.replicate c (0 : ℝ))) (by simpa using hi)]
    rfl

lemma transpose_zeros (r c : ℕ) : (zeros r c).transpose = zeros c r := by
  refine ext_mk ?_ rfl rfl
  rw [transpose_data]
  show _ = List.replicate c (List.replicate r (0 : ℝ))
  rw [List.eq_replicate_iff]
  refine ⟨by simp [zeros], ?_⟩
  intro b hb
  obtain ⟨j, _, rfl⟩ := List.mem_map.mp hb
  rw [List.eq_replicate_iff]
  refine ⟨by simp [zeros], ?_⟩
  intro x hx
  obtain ⟨i, _, rfl⟩ := List.mem_map.mp hx
  exact zeros_entry r c i j

lemma ata_zeros (rows cols : ℕ) :
    ((zeros rows cols).transpose).mul (zeros rows cols) =
      .ok (Matrix.mk (List.replicate cols (List.replicate cols 0)) cols cols) := by
  rw [transpose_zeros, mul_ok _ _ rfl]
  congr 1
  refine ext_mk ?_ rfl rfl
  show _ = List.replicate cols (List.replicate cols (0 : ℝ))
  rw [List.eq_replicate_iff]
  refine ⟨by simp [zeros], ?_⟩
  intro b hb
  obtain ⟨i, _, rfl⟩ := List.mem_map.mp hb
  rw [List.eq_replicate_iff]
  refine ⟨by simp [zeros], ?_⟩
  intro x hx
  obtain ⟨j, _, rfl⟩ := List.mem_map.mp hx
  apply List.sum_eq_zero
  intro y hy
  obtain ⟨k, _, rfl⟩ := List.mem_map.mp hy
  rw [zeros_entry, zero_mul]

lemma sumSq_nonneg (v : List ℝ) : 0 ≤ sumSq v := by
  apply List.sum_nonneg
  intro x hx
  obtain ⟨y, _, rfl⟩ := List.mem_map.mp hx
  exact mul_self_nonneg y

lemma sumSq_replicate_zero (n : ℕ) : sumSq (List.replicate n (0 : ℝ)) = 0 := by
  simp [sumSq]

lemma sumSq_replicate_one (n : ℕ) : sumSq (List.replicate n (1 : ℝ)) = n := by
  simp [sumSq]

lemma normalize_snd (v : List ℝ) : (normalize v).2 = Real.sqrt (sumSq v) := by
  simp only [normalize]
  split <;> rfl

lemma normalize_fst_of_pos (v : List ℝ) (h : 0 < sumSq v) :
    (normalize v).1 = v.map (fun x => x / Real.sqrt (sumSq v)) := by
  simp only [normalize]
  rw [if_pos (Real.sqrt_pos.mpr h)]

lemma normalize_fst_of_zero (v : List ℝ) (h : sumSq v = 0) :
    (normalize v).1 = v := by
  simp only [normalize]
  rw [if_neg (by rw [h, Real.sqrt_zero]; norm_num)]

lemma normalize_fst_length (v : List ℝ) : (normalize v).1.length = v.length := by
  simp only [normalize]
  split <;> simp

lemma normalize_snd_eq_zero (v : List ℝ) :
    (normalize v).2 = 0 ↔ sumSq v = 0 := by
  rw [normalize_snd, Real.sqrt_eq_zero']
  constructor
  · intro h
    exact le_antisymm h (sumSq_nonneg v)
  · intro h
    rw [h]

lemma mat_vec_mul_length (m : List (List ℝ)) (v : List ℝ) :
    (mat_vec_mul m v).length = m.length := by
  simp [mat_vec_mul]

lemma mat_vec_mul_zeroW (n : ℕ) (b : List ℝ) :
    mat_vec_mul (List.replicate n (List.replicate n (0 : ℝ))) b =
      List.replicate n 0 := by
  rw [mat_vec_mul, List.map_replicate]
  congr 1
  apply List.sum_eq_zero
  intro x hx
  obtain ⟨⟨p1, p2⟩, hp, rfl⟩ := List.mem_map.mp hx
  have h1 : p1 = 0 := List.eq_of_mem_replicate (List.of_mem_zip hp).1
  rw [h1]
  exact zero_mul p2

lemma powerIter_zeroW (tol : ℝ) (n : ℕ) :
    ∀ (fuel : ℕ) (b : List ℝ) (lam : ℝ),
      powerIter tol (List.replicate n (List.replicate n 0)) b lam fuel = (b, lam)
  | 0, b, lam => rfl
  | fuel + 1, b, lam => by
    simp only [powerIter, mat_vec_mul_zeroW]
    rw [if_pos ((normalize_snd_eq_zero _).mpr (sumSq_replicate_zero n))]

lemma svdLoop_zeroW (tol : ℝ) (mi n fuel : ℕ) :
    svdLoop tol mi n (List.replicate n (List.replicate n 0)) fuel = ([], []) := by
  cases fuel with
  | zero => rfl
  | succ k =>
      simp only [svdLoop]
      cases n with
      | zero =>
          rw [if_pos ((normalize_snd_eq_zero _).mpr (by simp [sumSq]))]
      | succ m =>
          rw [if_neg (by
            rw [normalize_snd_eq_zero, sumSq_replicate_one]
            exact_mod_cast Nat.succ_ne_zero m)]
          rw [powerIter_zeroW]
          rw [if_pos (by show |(0 : ℝ)| < _; rw [abs_zero]; norm_num)]

lemma svd_zeros (rows cols : ℕ) (tol : ℝ) (mi : ℕ) :
    (zeros rows cols).svd tol mi = .ok (zeros rows rows, [], zeros 0 0) := by
  have h := ata_zeros rows cols
  simp only [svd, h, exceptOk_bind]
  rw [svdLoop_zeroW]
  rfl

end Matrix

/-- C2: the SVD of the all-zero matrix of any shape returns rank 0: an
empty singular-value sequence, `U` the `rows × rows` zero matrix, and `Vᵗ`
the `0 × 0` matrix. -/
theorem svd_zero_matrix (rows cols : ℕ) (tol : ℝ) (maxIter : ℕ) :
    (Matrix.zeros rows cols).svd tol maxIter =
      .ok (Matrix.zeros rows rows, [], Matrix.zeros 0 0) :=
  Matrix.svd_zeros rows cols tol maxIter

/-- Witness for the amended cosine-similarity specification: a nonzero
pair succeeds with value 1, and a zero second vector fails with the
zero-vector error. -/
theorem cosine_similarity_spec_witness :
    cosine_similarity [3, 4] [3, 4] = .ok 1 ∧
    cosine_similarity [3, 4] [0, 0] =
      .error "Cannot compute cosine similarity with zero vector" := by
  have h5 : normValue [3, 4] = 5 := by
    have : ((0 : ℝ) + 3 * 3) + 4 * 4 = 5 ^ 2 := by norm_num
    simp only [normValue, List.foldl_cons, List.foldl_nil, this]
    exact Real.sqrt_sq (by norm_num)
  have h0 : normValue [0, 0] = 0 := by
    have hz : ((0 : ℝ) + 0 * 0) + 0 * 0 = 0 := by norm_num
    simp only [normValue, List.foldl_cons, List.foldl_nil, hz, Real.sqrt_zero]
  constructor
  · have h := ((cosine_similarity_spec [3, 4] [3, 4]).2.1 (by simp) rfl).2
      (by rw [h5]; norm_num) (by rw [h5]; norm_num)
    rw [h, h5]
    have hd : dotValue [3, 4] [3, 4] = 25 := by
      simp only [dotValue, List.zip_cons_cons, List.zip_nil_right,
        List.foldl_cons, List.foldl_nil]
      norm_num
    rw [hd]
    norm_num
  · exact ((cosine_similarity_spec [3, 4] [0, 0]).2.1 (by simp) rfl).1
      (Or.inr h0)

lemma snd_mem_of_mem_enumFrom {α : Type} :
    ∀ (l : List α) (k : ℕ) (p : ℕ × α), p ∈ List.enumFrom k l → p.2 ∈ l
  | [], _, _, h => by cases h
  | x :: xs, k, p, h => by
    rw [List.enumFrom_cons] at h
    rcases List.mem_cons.mp h with rfl | h
    · exact List.mem_cons_self _ _
    · exact List.mem_cons_of_mem _ (snd_mem_of_mem_enumFrom xs (k + 1) p h)

namespace Matrix

/-! ### The SVD success path -/

lemma transpose_mul_self (A : Matrix) : A.transpose.mul A = .ok (ataMatrix A) := by
  rw [mul_ok _ _ rfl]
  rfl

lemma ataMatrix_rows (A : Matrix) : (ataMatrix A).rows = A.cols := rfl

lemma ataMatrix_data_length (A : Matrix) :
    (ataMatrix A).data.length = (ataMatrix A).rows := by
  simp [ataMatrix]

lemma deflate_length (W : List (List ℝ)) (lam : ℝ) (b : List ℝ) :
    (deflate W lam b).length = W.length := by
  simp [deflate]

lemma col_length (m : Matrix) (idx : ℕ) : (m.col idx).length = m.rows := by
  simp [col]

lemma powerIter_length (tol : ℝ) {W : List (List ℝ)} {n : ℕ} (hW : W.length = n) :
    ∀ (fuel : ℕ) (b : List ℝ) (lam : ℝ), b.length = n →
      ((powerIter tol W b lam fuel).1).length = n
  | 0, _, _, hb => hb
  | fuel + 1, b, lam, hb => by
    simp only [powerIter]
    split
    · exact hb
    · split
      · rw [normalize_fst_length, mat_vec_mul_length]
        exact hW
      · exact powerIter_length tol hW fuel _ _
          (by rw [normalize_fst_length, mat_vec_mul_length]; exact hW)

lemma svdLoop_eigvals_le (tol : ℝ) (mi n : ℕ) :
    ∀ (fuel : ℕ) (W : List (List ℝ)), (svdLoop tol mi n W fuel).1.length ≤ fuel
  | 0, _ => by simp [svdLoop]
  | fuel + 1, W => by
    simp only [svdLoop]
    split
    · simp
    · split
      · simp
      · show ((_ :: _ : List ℝ).length ≤ fuel + 1)
        rw [List.length_cons]
        exact Nat.succ_le_succ (svdLoop_eigvals_le tol mi n fuel _)

lemma svdLoop_eigvecs_len (tol : ℝ) (mi n : ℕ) :
    ∀ (fuel : ℕ) (W : List (List ℝ)), W.length = n →
      ∀ v ∈ (svdLoop tol mi n W fuel).2, v.length = n
  | 0, _, _ => by simp [svdLoop]
  | fuel + 1, W, hW => by
    simp only [svdLoop]
    split
    · simp
    · split
      · simp
      · intro v hv
        rcases List.mem_cons.mp hv with rfl | hv
        · exact powerIter_length tol hW mi _ _
            (by rw [normalize_fst_length, List.length_replicate])
        · exact svdLoop_eigvecs_len tol mi n fuel _
            (by rw [deflate_length]; exact hW) v hv

lemma foldlM_set_col_ok {β : Type} (g : Matrix → β → Except String Matrix)
    (idxOf : β → ℕ) (valsOf : β → List ℝ)
    (hg : ∀ m p, g m p = m.set_col (idxOf p) (valsOf p)) :
    ∀ (l : List β) (m : Matrix), m.data.length = m.rows →
      (∀ p ∈ l, (valsOf p).length = m.rows) →
      ∃ m2, l.foldlM g m = .ok m2 ∧ m2.rows = m.rows ∧ m2.cols = m.cols ∧
        m2.data.length = m.data.length ∧ (m.WF → m2.WF)
  | [], m, _, _ => by
    refine ⟨m, ?_, rfl, rfl, rfl, id⟩
    rw [List.foldlM_nil]
    rfl
  | p :: l, m, hdl, hl => by
    have hp := hl p (List.mem_cons_self p l)
    obtain ⟨m1, hm1, h1r, h1c, h1len, _⟩ := set_col_ok m (idxOf p) (valsOf p) hp
    obtain ⟨m2, hm2, h2r, h2c, h2len, h2wf⟩ :=
      foldlM_set_col_ok g idxOf valsOf hg l m1
        (by rw [h1len, h1r]; exact hdl)
        (by
          intro q hq
          rw [h1r]
          exact hl q (List.mem_cons_of_mem p hq))
    refine ⟨m2, ?_, by rw [h2r, h1r], by rw [h2c, h1c], by rw [h2len, h1len],
      fun hWF => h2wf (set_col_WF hm1 hWF)⟩
    rw [List.foldlM_cons, hg m p, hm1, exceptOk_bind, hm2]

lemma foldl_preserve {β : Type} (P : List (List ℝ) → Prop)
    (g : List (List ℝ) → β → List (List ℝ))
    (hg : ∀ d x, P d → P (g d x)) :
    ∀ (l : List β) (d : List (List ℝ)), P d → P (l.foldl g d)
  | [], _, h => h
  | x :: l, d, h => foldl_preserve P g hg l (g d x) (hg d x h)

lemma setEntry_preserve {r n : ℕ} {d : List (List ℝ)}
    (h : d.length = r ∧ ∀ row ∈ d, row.length = n) (j i : ℕ) (x : ℝ) :
    (setEntry d j i x).length = r ∧ ∀ row ∈ setEntry d j i x, row.length = n := by
  obtain ⟨h1, h2⟩ := h
  by_cases hj : j < d.length
  · refine ⟨by rw [setEntry_length, h1], ?_⟩
    intro row hrow
    rcases List.mem_or_eq_of_mem_set hrow with hmem | rfl
    · exact h2 row hmem
    · rw [List.length_set, List.getD_eq_getElem d [] hj]
      exact h2 _ (List.getElem_mem hj)
  · rw [setEntry, List.set_eq_of_length_le (by omega)]
    exact ⟨h1, h2⟩

lemma vt_data_WF (r n : ℕ) (v_mat : Matrix) :
    ((List.range r).foldl (fun d j =>
        (List.range n).foldl
          (fun d2 i => setEntry d2 j i ((v_mat.col j).getD i 0)) d)
      ((zeros r n).data)).length = r ∧
    ∀ row ∈ (List.range r).foldl (fun d j =>
        (List.range n).foldl
          (fun d2 i => setEntry d2 j i ((v_mat.col j).getD i 0)) d)
      ((zeros r n).data), row.length = n := by
  apply foldl_preserve (fun d => d.length = r ∧ ∀ row ∈ d, row.length = n)
  · intro d j hd
    apply foldl_preserve (fun d => d.length = r ∧ ∀ row ∈ d, row.length = n)
    · intro d2 i hd2
      exact setEntry_preserve hd2 j i _
    · exact hd
  · constructor
    · simp [zeros]
    · intro row hrow
      rw [List.eq_of_mem_replicate hrow]
      simp

lemma svd_isOk (A : Matrix) (tol : ℝ) (mi : ℕ) :
    ∃ U Vt, A.svd tol mi = .ok (U, (svdEigvals A tol mi).map clampSqrt, Vt) ∧
      U.WF ∧ Vt.WF := by
  simp only [svd, transpose_mul_self, exceptOk_bind]
  by_cases hr :
      ((svdLoop tol mi (ataMatrix A).rows (ataMatrix A).data
        (ataMatrix A).rows).1.map clampSqrt).length = 0
  · rw [if_pos hr]
    refine ⟨zeros A.rows A.rows, zeros 0 0, ?_, zeros_WF _ _, zeros_WF _ _⟩
    have h1 : (svdLoop tol mi (ataMatrix A).rows (ataMatrix A).data
        (ataMatrix A).rows).1 = [] := by
      rw [List.length_map] at hr
      exact List.length_eq_zero.mp hr
    rw [svdEigvals, h1]
    rfl
  · rw [if_neg hr]
    have hvecs : ∀ p ∈ (svdLoop tol mi (ataMatrix A).rows (ataMatrix A).data
        (ataMatrix A).rows).2.enum, (p.2).length = (ataMatrix A).rows := by
      intro p hp
      rw [List.enum_eq_enumFrom] at hp
      exact svdLoop_eigvecs_len tol mi (ataMatrix A).rows (ataMatrix A).rows
        (ataMatrix A).data (ataMatrix_data_length A) p.2
        (snd_mem_of_mem_enumFrom _ 0 p hp)
    obtain ⟨v_mat, hv, hvr, hvc, hvlen, hvwf⟩ :=
      foldlM_set_col_ok (fun m p => m.set_col p.1 p.2) Prod.fst Prod.snd
        (fun _ _ => rfl)
        ((svdLoop tol mi (ataMatrix A).rows (ataMatrix A).data
          (ataMatrix A).rows).2.enum)
        (zeros (ataMatrix A).rows
          ((svdLoop tol mi (ataMatrix A).rows (ataMatrix A).data
            (ataMatrix A).rows).1.map clampSqrt).length)
        (by simp [zeros]) hvecs
    rw [hv, exceptOk_bind]
    have hmulok := mul_ok A v_mat (by rw [hvr]; rfl)
    rw [hmulok, exceptOk_bind]
    obtain ⟨u_mat, hu, hur, huc, hulen, huwf⟩ :=
      foldlM_set_col_ok
        (fun (m : Matrix) (p : ℕ × ℝ) => m.set_col p.1
          (if |p.2| < (1 / 10 ^ 12 : ℝ) then List.replicate A.rows (0 : ℝ)
           else ((Matrix.mk
              ((List.range A.rows).map (fun i =>
                (List.range v_mat.cols).map (fun j =>
                  ((List.range A.cols).map (fun k =>
                    (A.data.getD i []).getD k 0 *
                      (v_mat.data.getD k []).getD j 0)).sum)))
              A.rows v_mat.cols).col p.1).map (fun x => x / p.2)))
        Prod.fst
        (fun p =>
          if |p.2| < (1 / 10 ^ 12 : ℝ) then List.replicate A.rows (0 : ℝ)
          else ((Matrix.mk
              ((List.range A.rows).map (fun i =>
                (List.range v_mat.cols).map (fun j =>
                  ((List.range A.cols).map (fun k =>
                    (A.data.getD i []).getD k 0 *
                      (v_mat.data.getD k []).getD j 0)).sum)))
              A.rows v_mat.cols).col p.1).map (fun x => x / p.2))
        (fun _ _ => rfl)
        ((svdLoop tol mi (ataMatrix A).rows (ataMatrix A).data
          (ataMatrix A).rows).1.map clampSqrt).enum
        (zeros A.rows
          ((svdLoop tol mi (ataMatrix A).rows (ataMatrix A).data
            (ataMatrix A).rows).1.map clampSqrt).length)
        (by simp [zeros])
        (by
          intro p _
          beta_reduce
          split
          · simp [zeros]
          · rw [List.length_map, col_length]
            rfl)
    rw [hu, exceptOk_bind]
    refine ⟨u_mat, _, rfl, huwf (zeros_WF _ _), ?_⟩
    exact vt_data_WF
      ((svdLoop tol mi (ataMatrix A).rows (ataMatrix A).data
        (ataMatrix A).rows).1.map clampSqrt).length
      (ataMatrix A).rows v_mat

lemma svdSingularValues_eq {A : Matrix} {tol : ℝ} {mi : ℕ} {U : Matrix}
    {sv : List ℝ} {Vt : Matrix} (h : A.svd tol mi = .ok (U, sv, Vt)) :
    svdSingularValues A tol mi = sv := by
  unfold svdSingularValues
  rw [h]

lemma new_ok_WF {d : List (List ℝ)} {M : Matrix} (h : Matrix.new d = .ok M) :
    M.WF := by
  simp only [Matrix.new] at h
  split at h
  · cases h
  · split at h
    · cases h
    · rename_i hall
      cases h
      refine ⟨rfl, ?_⟩
      intro row hrow
      have := (List.all_eq_true.mp (not_not.mp hall)) row hrow
      simpa using this

end Matrix

/-- C3: the singular values returned by `svd` are the images of the
accepted eigenvalues under the clamped square root, which sends a positive
eigenvalue to its square root and a non-positive one to `0`; consequently
every returned singular value is non-negative. -/
theorem svd_singular_values_clamp (A : Matrix) (tol : ℝ) (maxIter : ℕ) :
    Matrix.svdSingularValues A tol maxIter =
      (Matrix.svdEigvals A tol maxIter).map Matrix.clampSqrt ∧
    (∀ lam : ℝ, 0 < lam → Matrix.clampSqrt lam = Real.sqrt lam) ∧
    (∀ lam : ℝ, lam ≤ 0 → Matrix.clampSqrt lam = 0) ∧
    ∀ x ∈ Matrix.svdSingularValues A tol maxIter, 0 ≤ x := by
  obtain ⟨U, Vt, he, _, _⟩ := Matrix.svd_isOk A tol maxIter
  have hs := Matrix.svdSingularValues_eq he
  refine ⟨hs, fun lam h => by rw [Matrix.clampSqrt, if_pos h],
    fun lam h => by rw [Matrix.clampSqrt, if_neg (not_lt.mpr h)], ?_⟩
  intro x hx
  rw [hs] at hx
  obtain ⟨lam, _, rfl⟩ := List.mem_map.mp hx
  rw [Matrix.clampSqrt]
  split
  · exact Real.sqrt_nonneg _
  · exact le_refl 0

/-- Witness for the clamped-square-root specification: a positive
eigenvalue maps to its square root, a negative one to zero, and the
singular values of a concrete matrix are non-negative. -/
theorem svd_singular_values_clamp_witness :
    Matrix.clampSqrt 4 = Real.sqrt 4 ∧ Matrix.clampSqrt (-1) = 0 ∧
    ∀ x ∈ Matrix.svdSingularValues (Matrix.zeros 1 1) 1 1, 0 ≤ x := by
  have h := svd_singular_values_clamp (Matrix.zeros 1 1) 1 1
  exact ⟨h.2.1 4 (by norm_num), h.2.2.1 (-1) (by norm_num), h.2.2.2⟩

/-- C1 (amended): the singular-value sequence returned by `svd` has at most
`A.cols` entries and every entry is non-negative; it is not guaranteed to
be in non-increasing order — not even weakly, with ties allowed (see the
counterexample, where the sequence strictly increases) — because a power
iteration stopped by `tol` or `max_iter` need not have reached the
dominant remaining eigenvalue before deflation. -/
theorem svd_singular_values_bound (A : Matrix) (tol : ℝ) (maxIter : ℕ) :
    (Matrix.svdSingularValues A tol maxIter).length ≤ A.cols ∧
    ∀ x ∈ Matrix.svdSingularValues A tol maxIter, 0 ≤ x := by
  obtain ⟨U, Vt, he, _, _⟩ := Matrix.svd_isOk A tol maxIter
  have hs := Matrix.svdSingularValues_eq he
  rw [hs]
  constructor
  · rw [List.length_map]
    exact Matrix.svdLoop_eigvals_le tol maxIter (Matrix.ataMatrix A).rows
      (Matrix.ataMatrix A).rows (Matrix.ataMatrix A).data
  · intro x hx
    obtain ⟨lam, _, rfl⟩ := List.mem_map.mp hx
    rw [Matrix.clampSqrt]
    split
    · exact Real.sqrt_nonneg _
    · exact le_refl 0

/-- Witness for the singular-value length bound and non-negativity at a
concrete matrix. -/
theorem svd_singular_values_bound_witness :
    (Matrix.svdSingularValues (Matrix.zeros 2 3) 1 1).length ≤ 3 ∧
    ∀ x ∈ Matrix.svdSingularValues (Matrix.zeros 2 3) 1 1, 0 ≤ x :=
  svd_singular_values_bound (Matrix.zeros 2 3) 1 1

/-- C10: every matrix produced by the public operations satisfies the shape
invariant: validated construction, `zeros`, `transpose`, successful
multiplication, successful column replacement on a well-formed receiver,
and the two matrix outputs of a successful `svd`. -/
theorem matrix_shape_invariant (d : List (List ℝ)) (rows cols : ℕ)
    (A B M N : Matrix) (idx : ℕ) (vals : List ℝ) (tol : ℝ) (maxIter : ℕ)
    (U Vt : Matrix) (sv : List ℝ) :
    (Matrix.new d = .ok M → M.WF) ∧
    (Matrix.zeros rows cols).WF ∧
    A.transpose.WF ∧
    (A.mul B = .ok N → N.WF) ∧
    (M.WF → M.set_col idx vals = .ok N → N.WF) ∧
    (A.svd tol maxIter = .ok (U, sv, Vt) → U.WF ∧ Vt.WF) := by
  refine ⟨Matrix.new_ok_WF, Matrix.zeros_WF rows cols, Matrix.transpose_WF A,
    Matrix.mul_out_WF A B N, fun hWF hsc => Matrix.set_col_WF hsc hWF,
    fun h => ?_⟩
  obtain ⟨U0, Vt0, he, hU0, hV0⟩ := Matrix.svd_isOk A tol maxIter
  rw [he] at h
  have htup := Except.ok.inj h
  rw [Prod.mk.injEq, Prod.mk.injEq] at htup
  obtain ⟨hU, _, hVt⟩ := htup
  exact ⟨hU ▸ hU0, hVt ▸ hV0⟩

/-- Witness for the shape invariant at concrete inputs: a constructed
matrix, a zero matrix, a transpose, a concrete product, a concrete column
replacement, and the `U` and `Vᵗ` of the SVD of the zero matrix. -/
theorem matrix_shape_invariant_witness :
    (Matrix.mk [[(1 : ℝ), 2], [3, 4]] 2 2).WF ∧
    (Matrix.zeros 2 3).WF ∧
    (Matrix.zeros 2 2).transpose.WF ∧
    (Matrix.mk (List.replicate 1 (List.replicate 1 (0 : ℝ))) 1 1).WF ∧
    (Matrix.mk [[(9 : ℝ), 2], [8, 4]] 2 2).WF ∧
    (Matrix.zeros 2 2).WF ∧ (Matrix.zeros 0 0).WF := by
  have h1 := matrix_shape_invariant [[(1 : ℝ), 2], [3, 4]] 2 3
    ((Matrix.zeros 1 1).transpose) (Matrix.zeros 1 1)
    (Matrix.mk [[(1 : ℝ), 2], [3, 4]] 2 2)
    (Matrix.mk (List.replicate 1 (List.replicate 1 (0 : ℝ))) 1 1)
    0 [9, 8] 1 1 (Matrix.zeros 2 2) (Matrix.zeros 0 0) []
  have h2 := matrix_shape_invariant [] 0 0 (Matrix.zeros 2 2) (Matrix.zeros 2 2)
    (Matrix.mk [[(1 : ℝ), 2], [3, 4]] 2 2) (Matrix.mk [[(9 : ℝ), 2], [8, 4]] 2 2)
    0 [9, 8] 1 1 (Matrix.zeros 2 2) (Matrix.zeros 0 0) []
  have hMWF : (Matrix.mk [[(1 : ℝ), 2], [3, 4]] 2 2).WF := by
    refine ⟨by simp, ?_⟩
    intro row hrow
    simp at hrow
    rcases hrow with h | h <;> simp [h]
  have hset : (Matrix.mk [[(1 : ℝ), 2], [3, 4]] 2 2).set_col 0 [9, 8] =
      .ok (Matrix.mk [[(9 : ℝ), 2], [8, 4]] 2 2) := rfl
  have hsvd := h2.2.2.2.2.2 (Matrix.svd_zeros 2 2 1 1)
  exact ⟨h1.1 rfl, h1.2.1, h2.2.2.1, h1.2.2.2.1 (Matrix.ata_zeros 1 1),
    h2.2.2.2.2.1 hMWF hset, hsvd.1, hsvd.2⟩

namespace Matrix

/-! ### Scale invariance of the power iteration

Every quantity `powerIter` branches on is invariant under positive scaling
of the iterate, so the loop can be mirrored by the square-root-free
recursion `dirPowerIter` on unnormalized direction vectors.  This is what
lets the eigenvalue sequence of a concrete run be computed exactly. -/

lemma sum_map_div (l : List ℝ) (c : ℝ) :
    (l.map (fun x => x / c)).sum = l.sum / c := by
  induction l with
  | nil => simp
  | cons x xs ih =>
      rw [List.map_cons, List.sum_cons, List.sum_cons, ih, add_div]

lemma sum_map_div_fun {α : Type} (l : List α) (f : α → ℝ) (c : ℝ) :
    (l.map (fun x => f x / c)).sum = (l.map f).sum / c := by
  induction l with
  | nil => simp
  | cons x xs ih =>
      rw [List.map_cons, List.map_cons, List.sum_cons, List.sum_cons, ih,
        add_div]

lemma sumSq_map_div (v : List ℝ) (c : ℝ) :
    sumSq (v.map (fun x => x / c)) = sumSq v / (c * c) := by
  rw [sumSq, List.map_map]
  have hcomp : ((fun x => x * x) ∘ fun x => x / c) =
      fun x => (x * x) / (c * c) := by
    funext x
    rw [Function.comp_apply, div_mul_div_comm]
  rw [hcomp, sum_map_div_fun v (fun x => x * x) (c * c), sumSq]

lemma mat_vec_mul_map_div (W : List (List ℝ)) (v : List ℝ) (c : ℝ) :
    mat_vec_mul W (v.map (fun x => x / c)) =
      (mat_vec_mul W v).map (fun x => x / c) := by
  rw [mat_vec_mul, mat_vec_mul, List.map_map]
  congr 1
  funext row
  rw [Function.comp_apply, List.zip_map_right, List.map_map]
  have hcomp : ((fun p : ℝ × ℝ => p.1 * p.2) ∘ Prod.map id (fun x => x / c)) =
      fun p : ℝ × ℝ => (p.1 * p.2) / c := by
    funext p
    show p.1 * (p.2 / c) = p.1 * p.2 / c
    rw [mul_div_assoc]
  rw [hcomp, sum_map_div_fun (row.zip v) (fun p => p.1 * p.2) c]

lemma rayleigh_map_div (W : List (List ℝ)) (v : List ℝ) (c : ℝ) :
    rayleigh_quotient W (v.map (fun x => x / c)) =
      rayleigh_quotient W v / (c * c) := by
  rw [rayleigh_quotient, rayleigh_quotient, mat_vec_mul_map_div, List.zip_map,
    List.map_map]
  have hcomp : ((fun p : ℝ × ℝ => p.1 * p.2) ∘
      Prod.map (fun x => x / c) (fun x => x / c)) =
      fun p : ℝ × ℝ => (p.1 * p.2) / (c * c) := by
    funext p
    show (p.1 / c) * (p.2 / c) = p.1 * p.2 / (c * c)
    rw [div_mul_div_comm]
  rw [hcomp, sum_map_div_fun (v.zip (mat_vec_mul W v)) (fun p => p.1 * p.2)
    (c * c)]

lemma getD_map_div (v : List ℝ) (c : ℝ) (i : ℕ) :
    (v.map (fun x => x / c)).getD i 0 = v.getD i 0 / c := by
  by_cases h : i < v.length
  · rw [List.getD_eq_getElem _ _ (by simpa using h), List.getElem_map,
      List.getD_eq_getElem _ _ h]
  · rw [getD_oob _ (by simpa using h), getD_oob _ (by omega), zero_div]

lemma deflate_normalized (W : List (List ℝ)) (lam : ℝ) (w : List ℝ) :
    deflate W lam (w.map (fun x => x / Real.sqrt (sumSq w))) =
      dirDeflate W lam w := by
  have hcc : Real.sqrt (sumSq w) * Real.sqrt (sumSq w) = sumSq w :=
    Real.mul_self_sqrt (sumSq_nonneg w)
  rw [deflate, dirDeflate]
  congr 1
  funext i row
  congr 1
  funext j x
  rw [getD_map_div, getD_map_div, mul_assoc, div_mul_div_comm, hcc,
    ← mul_div_assoc]

lemma powerIter_sim (tol : ℝ) (W : List (List ℝ)) :
    ∀ (fuel : ℕ) (w : List ℝ) (lam : ℝ), sumSq w ≠ 0 →
      powerIter tol W (w.map (fun x => x / Real.sqrt (sumSq w))) lam fuel =
        ((dirPowerIter tol W w lam fuel).1.map
          (fun x => x / Real.sqrt (sumSq (dirPowerIter tol W w lam fuel).1)),
         (dirPowerIter tol W w lam fuel).2) ∧
      sumSq (dirPowerIter tol W w lam fuel).1 ≠ 0
  | 0, w, lam, hw => ⟨rfl, hw⟩
  | fuel + 1, w, lam, hw => by
    have hs : 0 < sumSq w := lt_of_le_of_ne (sumSq_nonneg w) (Ne.symm hw)
    simp only [powerIter, dirPowerIter]
    rw [mat_vec_mul_map_div]
    have hsum : sumSq ((mat_vec_mul W w).map
        (fun x => x / Real.sqrt (sumSq w))) =
        sumSq (mat_vec_mul W w) / sumSq w := by
      rw [sumSq_map_div, Real.mul_self_sqrt (le_of_lt hs)]
    by_cases hu0 : sumSq (mat_vec_mul W w) = 0
    · rw [if_pos ((normalize_snd_eq_zero _).mpr (by rw [hsum, hu0, zero_div])),
        if_pos hu0]
      exact ⟨rfl, hw⟩
    · have hupos : 0 < sumSq (mat_vec_mul W w) :=
        lt_of_le_of_ne (sumSq_nonneg _) (Ne.symm hu0)
      rw [if_neg (by rw [normalize_snd_eq_zero, hsum]; exact div_ne_zero hu0 hw),
        if_neg hu0]
      have hfst : (normalize ((mat_vec_mul W w).map
          (fun x => x / Real.sqrt (sumSq w)))).1 =
          (mat_vec_mul W w).map
            (fun x => x / Real.sqrt (sumSq (mat_vec_mul W w))) := by
        rw [normalize_fst_of_pos _ (by rw [hsum]; exact div_pos hupos hs), hsum,
          List.map_map]
        congr 1
        funext x
        rw [Function.comp_apply, Real.sqrt_div' _ (le_of_lt hs)]
        have h1 : Real.sqrt (sumSq w) ≠ 0 := (Real.sqrt_pos.mpr hs).ne'
        have h2 : Real.sqrt (sumSq (mat_vec_mul W w)) ≠ 0 :=
          (Real.sqrt_pos.mpr hupos).ne'
        field_simp
      rw [hfst]
      have hray : rayleigh_quotient W ((mat_vec_mul W w).map
          (fun x => x / Real.sqrt (sumSq (mat_vec_mul W w)))) =
          rayleigh_quotient W (mat_vec_mul W w) / sumSq (mat_vec_mul W w) := by
        rw [rayleigh_map_div, Real.mul_self_sqrt (le_of_lt hupos)]
      rw [hray]
      by_cases htol :
          |rayleigh_quotient W (mat_vec_mul W w) / sumSq (mat_vec_mul W w) -
            lam| < tol
      · rw [if_pos htol, if_pos htol]
        exact ⟨rfl, hu0⟩
      · rw [if_neg htol, if_neg htol]
        exact powerIter_sim tol W fuel (mat_vec_mul W w) _ hu0

lemma svdLoop_sim (tol : ℝ) (mi n : ℕ) :
    ∀ (fuel : ℕ) (W : List (List ℝ)),
      (svdLoop tol mi n W fuel).1 = dirLoop tol mi n W fuel
  | 0, _ => rfl
  | fuel + 1, W => by
    simp only [svdLoop, dirLoop]
    by_cases hn : n = 0
    · rw [if_pos ((normalize_snd_eq_zero _).mpr (by subst hn; simp [sumSq])),
        if_pos hn]
    · have hone : sumSq (List.replicate n (1 : ℝ)) ≠ 0 := by
        rw [sumSq_replicate_one]
        exact_mod_cast hn
      rw [if_neg (fun hcc => hone ((normalize_snd_eq_zero _).mp hcc)), if_neg hn]
      rw [normalize_fst_of_pos _ (lt_of_le_of_ne (sumSq_nonneg _) (Ne.symm hone))]
      obtain ⟨hpi, hnz⟩ := powerIter_sim tol W mi (List.replicate n 1) 0 hone
      rw [hpi]
      dsimp only
      by_cases habs :
          |(dirPowerIter tol W (List.replicate n 1) 0 mi).2| < (1 / 10 ^ 12 : ℝ)
      · rw [if_pos habs, if_pos habs]
      · rw [if_neg habs, if_neg habs]
        rw [deflate_normalized W _ _]
        show _ :: (svdLoop tol mi n _ fuel).1 = _
        rw [svdLoop_sim tol mi n fuel _]

end Matrix

/-- C1 counterexample: for the validly shaped matrix `[[-2, 0], [-1, 2]]`
with `tol = 1 > 0` and `max_iter = 2`, `svd` returns exactly two singular
values and the first, `√(533/125) ≈ 2.06`, is strictly smaller than the
second, `√(35517832272/6501380125) ≈ 2.34`.  The sequence is therefore
strictly increasing, so the claimed non-increasing order fails in the weak
reading (each value at least the next, ties allowed) as well as in the
literal strict reading. -/
theorem svd_singular_values_not_sorted_counterexample :
    (Matrix.svdSingularValues (Matrix.mk [[-2, 0], [-1, 2]] 2 2) 1 2).getD 0 0 <
      (Matrix.svdSingularValues (Matrix.mk [[-2, 0], [-1, 2]] 2 2) 1 2).getD 1 0 ∧
    (Matrix.svdSingularValues (Matrix.mk [[-2, 0], [-1, 2]] 2 2) 1 2).length = 2 ∧
    ¬ NonIncreasing
      (Matrix.svdSingularValues (Matrix.mk [[-2, 0], [-1, 2]] 2 2) 1 2) ∧
    ¬ StrictlyDecreasing
      (Matrix.svdSingularValues (Matrix.mk [[-2, 0], [-1, 2]] 2 2) 1 2) := by
  have hata : Matrix.ataMatrix (Matrix.mk [[-2, 0], [-1, 2]] 2 2) =
      Matrix.mk [[5, -2], [-2, 4]] 2 2 := by
    simp only [Matrix.ataMatrix, Matrix.transpose]
    refine Matrix.ext_mk ?_ rfl rfl
    norm_num [List.range_succ]
  have hrep : List.replicate 2 (1 : ℝ) = [1, 1] := rfl
  have h1 : Matrix.dirPowerIter 1 [[(5 : ℝ), -2], [-2, 4]] [1, 1] 0 2 =
      ([11, 2], 533 / 125) := by
    simp only [Matrix.dirPowerIter]
    norm_num [Matrix.mat_vec_mul, Matrix.rayleigh_quotient, Matrix.sumSq,
      abs_sub_lt_iff, abs_lt]
  have hdefl : Matrix.dirDeflate [[(5 : ℝ), -2], [-2, 4]] (533 / 125) [11, 2] =
      [[13632 / 15625, -42976 / 15625], [-42976 / 15625, 60368 / 15625]] := by
    norm_num [Matrix.dirDeflate, Matrix.sumSq, List.mapIdx_cons]
  have h2 : Matrix.dirPowerIter 1
      [[(13632 : ℝ) / 15625, -42976 / 15625], [-42976 / 15625, 60368 / 15625]]
      [1, 1] 0 2 =
      ([-9179648 / 1953125, 18488064 / 1953125], 35517832272 / 6501380125) := by
    simp only [Matrix.dirPowerIter]
    norm_num [Matrix.mat_vec_mul, Matrix.rayleigh_quotient, Matrix.sumSq,
      abs_sub_lt_iff, abs_lt]
  have hdir : Matrix.dirLoop 1 2 2 [[(5 : ℝ), -2], [-2, 4]] 2 =
      [533 / 125, 35517832272 / 6501380125] := by
    simp only [Matrix.dirLoop, hrep, h1, hdefl, h2]
    norm_num [abs_lt]
  have heig : Matrix.svdEigvals (Matrix.mk [[-2, 0], [-1, 2]] 2 2) 1 2 =
      [533 / 125, 35517832272 / 6501380125] := by
    simp only [Matrix.svdEigvals, hata]
    rw [Matrix.svdLoop_sim]
    exact hdir
  obtain ⟨U, Vt, he, _, _⟩ :=
    Matrix.svd_isOk (Matrix.mk [[-2, 0], [-1, 2]] 2 2) 1 2
  have hs := Matrix.svdSingularValues_eq he
  have hc1 : Matrix.clampSqrt (533 / 125) = Real.sqrt (533 / 125) := by
    rw [Matrix.clampSqrt, if_pos (by norm_num)]
  have hc2 : Matrix.clampSqrt (35517832272 / 6501380125) =
      Real.sqrt (35517832272 / 6501380125) := by
    rw [Matrix.clampSqrt, if_pos (by norm_num)]
  rw [hs, heig, List.map_cons, List.map_cons, List.map_nil, hc1, hc2]
  have hlt : Real.sqrt (533 / 125) < Real.sqrt (35517832272 / 6501380125) :=
    Real.sqrt_lt_sqrt (by norm_num) (by norm_num)
  refine ⟨?_, rfl, ?_, ?_⟩
  · rw [List.getD_cons_zero, List.getD_cons_succ, List.getD_cons_zero]
    exact hlt
  · rw [NonIncreasing, List.chain'_cons]
    intro hchain
    exact absurd hchain.1 (not_le.mpr hlt)
  · rw [StrictlyDecreasing, List.chain'_cons]
    intro hchain
    exact absurd hchain.1 (not_lt.mpr (le_of_lt hlt))

end VectorMath
